import Mathlib

/-!
Verification of the embedded-test-stand protocol and firmware dispatch model.

The definitions below shallowly embed the Rust sources of the repository:
the COBS frame codec used by `Request::send`/`Request::receive`
(`test-lib/src/lib.rs`), the host-side test-suite helpers
(`test-suite/src/target.rs` of both stands), and the firmware dispatch
loop and interrupt handlers (`lpc845-test-stand/test-target/src/main.rs`).
Bytes are `Nat` values; hardware handles are opaque `Unit` payloads inside
`Option`, mirroring the `Option`-wrapped RTIC resources.
-/

namespace TestStand

/-- Modelled from the spec: the repository frames messages with postcard's
COBS encoding (`postcard::to_slice_cobs` in `Request::send`); the postcard
and cobs crates are external to the repository, so consistent-overhead byte
stuffing is modelled here from the spec's §4.1/glossary description.  A group
is the next run of at most 254 non-zero payload bytes. -/
def cobsGroup (data : List Nat) : List Nat :=
  (data.takeWhile (fun b => b != 0)).take 254

/-- Modelled from the spec: body of the COBS encoding.  Each group of at most
254 non-zero bytes is emitted as a code byte followed by the group: code 255
for a full group that consumes no zero byte, and code `length + 1` for a group
terminated by a consumed payload zero byte or by the end of the payload. -/
def cobsEncodeBody (data : List Nat) : List Nat :=
  if h : (cobsGroup data).length = 254 then
    255 :: (cobsGroup data ++ cobsEncodeBody (data.drop 254))
  else if h2 : (cobsGroup data).length < data.length then
    ((cobsGroup data).length + 1) ::
      (cobsGroup data ++ cobsEncodeBody (data.drop ((cobsGroup data).length + 1)))
  else
    ((cobsGroup data).length + 1) :: cobsGroup data
termination_by data.length
decreasing_by
  · have hle : (cobsGroup data).length ≤ data.length := by
      have h1 : (data.takeWhile (fun b => b != 0)).length ≤ data.length :=
        (List.takeWhile_sublist _).length_le
      simp only [cobsGroup, List.length_take]
      omega
    simp only [List.length_drop]
    omega
  · simp only [List.length_drop]
    omega

/-- The full COBS frame: encoded body followed by the sentinel terminator 0,
as written to the wire by `Request::send`. -/
def cobsEncode (data : List Nat) : List Nat :=
  cobsEncodeBody data ++ [0]

/-- Modelled from the spec: COBS frame decoding as performed by
`postcard::from_bytes_cobs` in `Request::receive`.  Reads a code byte, then
`code - 1` block bytes (which must not contain the sentinel), stops at the
terminator, and re-inserts a zero after each non-final block whose code is
below 255.  Malformed input (no terminator, truncated block, stray zero)
yields `none`. -/
def cobsDecodeBody : List Nat → Option (List Nat)
  | [] => none
  | c :: rest =>
    if c = 0 then none
    else if rest.length < c - 1 then none
    else if 0 ∈ rest.take (c - 1) then none
    else
      match hdrop : rest.drop (c - 1) with
      | [] => none
      | r :: rtail =>
        if r = 0 then some (rest.take (c - 1))
        else
          match cobsDecodeBody (r :: rtail) with
          | none => none
          | some out => some (rest.take (c - 1) ++ (if c < 255 then [0] else []) ++ out)
termination_by bytes => bytes.length
decreasing_by
  have hlen := congrArg List.length hdrop
  simp only [List.length_drop, List.length_cons] at hlen
  simp only [List.length_cons]
  omega

/-- Deframing entry point used by the model of `Request::receive`. -/
def cobsDecode (bytes : List Nat) : Option (List Nat) :=
  cobsDecodeBody bytes

/-- Outcome of the byte-reading loop in `Request::receive`
(`test-lib/src/lib.rs`, lines 52-76).  `ok frame rest` returns the bytes
written into the buffer (up to and including the terminator) and the part of
the stream that was never read; `blocked` stands for `block!` waiting forever
on an exhausted stream. -/
inductive ReceiveOutcome
  | ok (frame : List Nat) (rest : List Nat)
  | bufferTooSmall
  | blocked
deriving DecidableEq, Repr

/-- The read loop of `Request::receive`: checks `i >= buf.len()` (returning
`Error::BufferTooSmall`), reads one byte from the stream into the buffer, and
breaks at the first zero byte.  `written` is the buffer contents so far. -/
def receiveRaw (bufLen : Nat) (written : List Nat) : List Nat → ReceiveOutcome
  | [] =>
    if bufLen ≤ written.length then .bufferTooSmall else .blocked
  | b :: rest =>
    if bufLen ≤ written.length then .bufferTooSmall
    else if b = 0 then .ok (written ++ [b]) rest
    else receiveRaw bufLen (written ++ [b]) rest

/-- Outcome of `Request::receive` as a whole: read loop followed by
`postcard::from_bytes_cobs` on the buffer (modelled by the COBS layer). -/
inductive RequestOutcome
  | ok (payload : List Nat) (rest : List Nat)
  | bufferTooSmall
  | postcardError
  | blocked
deriving DecidableEq, Repr

/-- `Request::receive`: run the read loop, then deframe the bytes written to
the buffer.  Only the framing layer of postcard is modelled; the payload is
the deframed byte sequence. -/
def requestReceive (bufLen : Nat) (stream : List Nat) : RequestOutcome :=
  match receiveRaw bufLen [] stream with
  | .ok frame rest =>
    match cobsDecodeBody frame with
    | some payload => .ok payload rest
    | none => .postcardError
  | .bufferTooSmall => .bufferTooSmall
  | .blocked => .blocked

/-- Modelled from the spec: USART transfer mode of `lpc845_messages`
(the messages crate is outside `src/`); §3 lists Regular, Dma, Sync,
FlowControl. -/
inductive UsartMode
  | regular
  | dma
  | sync
  | flowControl
deriving DecidableEq, Repr

/-- Modelled from the spec: I2C/SPI transfer mode (Regular, Dma). -/
inductive DmaMode
  | regular
  | dma
deriving DecidableEq, Repr

/-- Modelled from the spec: pin level of the `pin` module ({High, Low}). -/
inductive PinLevel
  | high
  | low
deriving DecidableEq, Repr

/-- Modelled from the spec: the `HostToTarget` command schema of
`lpc845_messages` (§3 Message), as matched by the firmware dispatch loop and
constructed by the test suites. -/
inductive HostToTarget
  | sendUsart (mode : UsartMode) (data : List Nat)
  | waitForAddress (address : Nat)
  | setPin (level : PinLevel)
  | readPin
  | startTimerInterrupt (periodMs : Nat)
  | stopTimerInterrupt
  | startI2cTransaction (mode : DmaMode) (address : Nat) (data : Nat)
  | startSpiTransaction (mode : DmaMode) (data : Nat)
  | startPwmSignal
  | stopPwmSignal
  | readAdc
deriving DecidableEq, Repr

/-- Modelled from the spec: the `TargetToHost` reply/telemetry schema of
`lpc845_messages` (§3 Message). -/
inductive TargetToHost
  | usartReceive (mode : UsartMode) (data : List Nat)
  | readPinResult (level : PinLevel)
  | i2cReply (b : Nat)
  | spiReply (b : Nat)
  | adcValue (v : Nat)
deriving DecidableEq, Repr

/-- `buf.windows(data.len()).any(|window| window == data)` from
`wait_for_usart_rx_inner`.  `Vec::windows` yields the contiguous windows of
the given size; the caller must guard against size zero, which panics. -/
def windowsContains (buf data : List Nat) : Bool :=
  (List.range (buf.length + 1 - data.length)).any
    (fun i => decide ((buf.drop i).take data.length = data))

/-- One observation of the host-side receive loop: either `conn.receive`
yields a message, or the `start.elapsed() > timeout` check fires at the head
of the iteration in which it is consumed. -/
inductive WaitEvent
  | message (m : TargetToHost)
  | timedOut
deriving DecidableEq, Repr

/-- Result of `wait_for_usart_rx_inner`; `panicked` models the
`Vec::windows(0)` panic, `receiveError` a failure of `conn.receive`. -/
inductive WaitOutcome
  | ok (buf : List Nat)
  | timeout
  | unexpectedMessage
  | receiveError
  | panicked
deriving DecidableEq, Repr

/-- `Target::wait_for_usart_rx_inner` (test-suite `target.rs`, both stands):
each iteration first checks whether the accumulated buffer contains the
expected data as a window (panicking if `data` is empty, since
`Vec::windows` requires a positive size), then checks the timeout, then
receives one message; a `UsartReceive` with the expected mode extends the
buffer, anything else returns `UnexpectedMessage`. -/
def waitForUsartRxInner (data : List Nat) (expectedMode : UsartMode) :
    List Nat → List WaitEvent → WaitOutcome
  | buf, events =>
    if data.length = 0 then .panicked
    else if windowsContains buf data then .ok buf
    else
      match events with
      | [] => .receiveError
      | .timedOut :: _ => .timeout
      | .message (TargetToHost.usartReceive mode d) :: rest =>
        if mode = expectedMode then waitForUsartRxInner data expectedMode (buf ++ d) rest
        else .unexpectedMessage
      | .message _ :: _ => .unexpectedMessage

/-- `Target::wait_for_usart_rx`: the inner loop with `UsartMode::Regular`. -/
def wait_for_usart_rx (data : List Nat) (events : List WaitEvent) : WaitOutcome :=
  waitForUsartRxInner data UsartMode.regular [] events

/-- `Target::wait_for_usart_rx_dma`: the inner loop with `UsartMode::Dma`. -/
def wait_for_usart_rx_dma (data : List Nat) (events : List WaitEvent) : WaitOutcome :=
  waitForUsartRxInner data UsartMode.dma [] events

/-- `Target::wait_for_usart_rx_sync` (lpc845 test suite): the inner loop with
`UsartMode::Sync`. -/
def wait_for_usart_rx_sync (data : List Nat) (events : List WaitEvent) : WaitOutcome :=
  waitForUsartRxInner data UsartMode.sync [] events

/-- Whether a received message is a `UsartReceive` carrying the expected
mode, i.e. whether the match guard of `wait_for_usart_rx_inner` accepts it. -/
def matchesExpected (expectedMode : UsartMode) : TargetToHost → Bool
  | .usartReceive mode _ => mode == expectedMode
  | _ => false

/-- The `Option`-wrapped shared resources of the RTIC `idle` task
(`test-target/src/main.rs`, `Resources`): the fields taken out with
`take().unwrap()` at the top of the `process_message` closure and stored
back at its end.  The hardware handles themselves are opaque. -/
structure Resources where
  swm : Option Unit
  usartTx : Option Unit
  usartRts : Option Unit
  usartRtsPin : Option Unit
  usartCts : Option Unit
  usartDmaChan : Option Unit
  i2c : Option Unit
  i2cDma : Option Unit
  spi : Option Unit
  spiRxDma : Option Unit
  spiTxDma : Option Unit
deriving DecidableEq, Repr

/-- All eleven `Option`-wrapped resources are occupied. -/
def Resources.allSome (res : Resources) : Bool :=
  res.swm.isSome && res.usartTx.isSome && res.usartRts.isSome &&
  res.usartRtsPin.isSome && res.usartCts.isSome && res.usartDmaChan.isSome &&
  res.i2c.isSome && res.i2cDma.isSome && res.spi.isSome &&
  res.spiRxDma.isSome && res.spiTxDma.isSome

/-- Abort conditions of the firmware dispatch loop: `take().unwrap()` on an
empty resource slot, or the `panic!("Unsupported message")` fallthrough arm. -/
inductive FwPanic
  | takeFailed
  | unsupportedMessage
deriving DecidableEq, Repr

/-- Hardware observations consumed by the command handlers: the level of the
red input pin and the bytes produced by the I2C/SPI peripherals. -/
structure Env where
  redLevel : PinLevel
  i2cResponse : Nat
  spiResponse : Nat
deriving DecidableEq, Repr

/-- The `match message` body of the `process_message` closure in `idle`
(`main.rs` lines 531-847): per command, the messages sent back through
`host_tx.send_message` (and no other reply), with the
`panic!("Unsupported message")` fallthrough for every unhandled variant.
Peripheral writes are effects outside the model; reads come from `Env`. -/
def executeMessage (env : Env) : HostToTarget → Except FwPanic (List TargetToHost)
  | .sendUsart UsartMode.regular _ => .ok []
  | .sendUsart UsartMode.dma _ => .ok []
  | .sendUsart UsartMode.flowControl _ => .ok []
  | .sendUsart UsartMode.sync _ => .ok []
  | .waitForAddress _ => .ok []
  | .setPin _ => .ok []
  | .readPin => .ok [TargetToHost.readPinResult env.redLevel]
  | .startTimerInterrupt _ => .ok []
  | .stopTimerInterrupt => .ok []
  | .startI2cTransaction DmaMode.regular _ _ => .ok [TargetToHost.i2cReply env.i2cResponse]
  | .startI2cTransaction DmaMode.dma _ _ => .ok [TargetToHost.i2cReply env.i2cResponse]
  | .startSpiTransaction DmaMode.regular _ => .ok [TargetToHost.spiReply env.spiResponse]
  | .startSpiTransaction DmaMode.dma _ => .ok [TargetToHost.spiReply env.spiResponse]
  | _ => .error FwPanic.unsupportedMessage

/-- The `HostToTarget` variants that have a handling arm in the dispatch
loop's `match message`; everything else reaches the `panic!` arm. -/
def supportedMessage : HostToTarget → Bool
  | .sendUsart _ _ => true
  | .waitForAddress _ => true
  | .setPin _ => true
  | .readPin => true
  | .startTimerInterrupt _ => true
  | .stopTimerInterrupt => true
  | .startI2cTransaction _ _ _ => true
  | .startSpiTransaction _ _ => true
  | _ => false

/-- The `process_message` closure of `idle`: take all eleven resources out of
their `Option` slots (`take().unwrap()`, panicking if any is empty), run the
command match, and store every local back into its slot before returning. -/
def processHostMessage (env : Env) (res : Resources) (msg : HostToTarget) :
    Except FwPanic (Resources × List TargetToHost) :=
  match res.swm, res.usartTx, res.usartRts, res.usartRtsPin, res.usartCts,
      res.usartDmaChan, res.i2c, res.i2cDma, res.spi, res.spiRxDma, res.spiTxDma with
  | some swmL, some usartTxL, some rtsL, some rtsPinL, some ctsL, some dmaChanL,
    some i2cL, some i2cDmaL, some spiL, some spiRxL, some spiTxL =>
    match executeMessage env msg with
    | .error e => .error e
    | .ok sent =>
      .ok ({ swm := some swmL, usartTx := some usartTxL, usartRts := some rtsL,
             usartRtsPin := some rtsPinL, usartCts := some ctsL,
             usartDmaChan := some dmaChanL, i2c := some i2cL,
             i2cDma := some i2cDmaL, spi := some spiL,
             spiRxDma := some spiRxL, spiTxDma := some spiTxL }, sent)
  | _, _, _, _, _, _, _, _, _, _, _ => .error FwPanic.takeFailed

/-- The pending inputs visible to one iteration of the `idle` loop: bytes
accumulated by the regular and sync USART receive pipelines, the contents of
the DMA queue, and at most one complete host command frame. -/
structure PipelineInput where
  usartData : List Nat
  usartSyncData : List Nat
  dmaQueue : List Nat
  hostMessage : Option HostToTarget
deriving DecidableEq, Repr

/-- Modelled from the spec: `RxIdle::process_raw` of `firmware-lib` (whose
module sources are outside `src/`) forwards any pending receive data to the
closure, which sends it as one `UsartReceive` telemetry message tagged with
the pipeline's mode; nothing is sent when no data is pending. -/
def forwardRaw (mode : UsartMode) (data : List Nat) : List TargetToHost :=
  if data = [] then [] else [TargetToHost.usartReceive mode data]

/-- The `while let Some(b) = usart_dma_cons.dequeue()` loop of `idle`
(`main.rs` lines 493-503): each dequeued byte is sent as its own
`UsartReceive {mode: Dma, data: &[b]}` message, in dequeue order, until the
queue is empty. -/
def drainDmaQueue : List Nat → List TargetToHost
  | [] => []
  | b :: rest => TargetToHost.usartReceive UsartMode.dma [b] :: drainDmaQueue rest

/-- One iteration of the `idle` dispatch loop (`main.rs` lines 469-505):
forward pending regular USART data, then pending sync USART data, then drain
the DMA queue completely, then process at most one host command.
`process_message` is modelled from the spec where `firmware-lib` is outside
`src/`: it hands the decoded command frame, if any, to the closure. -/
def idleIteration (env : Env) (res : Resources) (inp : PipelineInput) :
    Except FwPanic (Resources × List TargetToHost) :=
  let usartMsgs := forwardRaw UsartMode.regular inp.usartData
  let syncMsgs := forwardRaw UsartMode.sync inp.usartSyncData
  let dmaMsgs := drainDmaQueue inp.dmaQueue
  match inp.hostMessage with
  | none => .ok (res, usartMsgs ++ syncMsgs ++ dmaMsgs)
  | some msg =>
    match processHostMessage env res msg with
    | .error e => .error e
    | .ok (res2, sent) => .ok (res2, usartMsgs ++ syncMsgs ++ dmaMsgs ++ sent)

/-- Capacity of the DMA byte queue: `heapless::spsc::Queue<u8, 32>` holds at
most `N - 1 = 31` elements. -/
def dmaQueueCapacity : Nat := 31

/-- Abort conditions of the `dma0` handler: `take().unwrap()` on an empty
transfer slot (or a failed `wait()`), and `enqueue(b).unwrap()` on a full
queue. -/
inductive DmaPanic
  | takeFailed
  | queueFull
deriving DecidableEq, Repr

/-- State touched by the `dma0` interrupt handler: the `Option`-wrapped
started DMA transfer (carrying the receive buffer contents it completed
with) and the producer side of the single-producer/single-consumer queue. -/
structure Dma0State where
  transfer : Option (List Nat)
  queue : List Nat
deriving DecidableEq, Repr

/-- `spsc::Queue::enqueue`: fails when the queue is full. -/
def spscEnqueue (q : List Nat) (b : Nat) : Option (List Nat) :=
  if q.length < dmaQueueCapacity then some (q ++ [b]) else none

/-- The `for &b in buffer.iter() { queue.enqueue(b).unwrap() }` loop of
`dma0`: enqueue every byte of the completed buffer in order. -/
def enqueueAll (q : List Nat) : List Nat → Option (List Nat)
  | [] => some q
  | b :: rest =>
    match spscEnqueue q b with
    | some q2 => enqueueAll q2 rest
    | none => none

/-- The `dma0` interrupt handler (`main.rs` lines 928-952): take the
completed transfer, drain its buffer into the queue byte by byte, then
restart a transfer over the same buffer and store it back. -/
def dma0 (st : Dma0State) : Except DmaPanic Dma0State :=
  match st.transfer with
  | none => .error DmaPanic.takeFailed
  | some buffer =>
    match enqueueAll st.queue buffer with
    | none => .error DmaPanic.queueFull
    | some q2 => .ok { transfer := some buffer, queue := q2 }

/-- Readiness of the four receive pipelines visible to the `idle` loop at
the pre-suspension check: `can_process()` of the host and regular USART
pipelines, `can_process()` of the sync USART pipeline, and whether the DMA
queue holds data. -/
structure ReadinessState where
  hostCanProcess : Bool
  usartCanProcess : Bool
  usartSyncCanProcess : Bool
  dmaQueueCanProcess : Bool
deriving DecidableEq, Repr

/-- The condition under which the `idle` loop suspends (`asm::wfi`), from
`main.rs` lines 877-886: inside `interrupt::free`, it sleeps iff
`!host_rx.can_process() && !usart_rx.can_process()`. -/
def sleepConditionHolds (s : ReadinessState) : Bool :=
  !s.hostCanProcess && !s.usartCanProcess

/-- Following the spec's wording (§4.7 step 4): some receive pipeline —
host, regular USART, sync USART, or the DMA queue — has data to process. -/
def anyPipelineCanProcess (s : ReadinessState) : Bool :=
  s.hostCanProcess || s.usartCanProcess || s.usartSyncCanProcess || s.dmaQueueCanProcess

/-- Host-side connection state: the log of commands successfully written to
the serial channel, plus whether the underlying channel currently fails
writes. -/
structure ConnState where
  sendFails : Bool
  sentLog : List HostToTarget
deriving DecidableEq, Repr

/-- `Conn::send` error (host-lib): I/O or serialization failure. -/
inductive ConnSendError
  | ioError
deriving DecidableEq, Repr

/-- `Conn::send`: serialize, frame and write one command; on success exactly
that command is appended to the channel, on failure nothing is written. -/
def connSend (conn : ConnState) (msg : HostToTarget) : Except ConnSendError ConnState :=
  if conn.sendFails then .error ConnSendError.ioError
  else .ok { conn with sentLog := conn.sentLog ++ [msg] }

/-- A panic in host-side cleanup code: `unwrap()` on a failed send. -/
inductive HostPanic
  | unwrapOnSendError
deriving DecidableEq, Repr

/-- `TimerInterrupt::drop` (test-suite `target.rs`, both stands):
`conn.send(&HostToTarget::StopTimerInterrupt).unwrap()` — send the stop
command and panic if the send fails. -/
def timerInterruptDrop (conn : ConnState) : Except HostPanic ConnState :=
  match connSend conn HostToTarget.stopTimerInterrupt with
  | .ok conn2 => .ok conn2
  | .error _ => .error HostPanic.unwrapOnSendError

/-- `Target::start_timer_interrupt`: send `StartTimerInterrupt` and return a
guard on success. -/
def startTimerInterrupt (conn : ConnState) (periodMs : Nat) : Except ConnSendError ConnState :=
  connSend conn (HostToTarget.startTimerInterrupt periodMs)

end TestStand

namespace TestStand

theorem mem_twtake {p : Nat → Bool} {l : List Nat} {n : Nat} {b : Nat}
    (hb : b ∈ (l.takeWhile p).take n) : p b = true :=
  List.mem_takeWhile_imp (List.mem_of_mem_take hb)

theorem twtake_append_drop (p : Nat → Bool) :
    ∀ (l : List Nat) (n : Nat),
      (l.takeWhile p).take n ++ l.drop ((l.takeWhile p).take n).length = l := by
  intro l
  induction l with
  | nil => intro n; simp
  | cons a as ih =>
    intro n
    by_cases hp : p a
    · rw [List.takeWhile_cons_of_pos hp]
      cases n with
      | zero => simp
      | succ m =>
        simp only [List.take_succ_cons, List.length_cons, List.drop_succ_cons,
          List.cons_append]
        rw [ih m]
    · rw [List.takeWhile_cons_of_neg hp]
      simp

theorem twtake_short (p : Nat → Bool) (l : List Nat) (n : Nat)
    (h : ((l.takeWhile p).take n).length ≠ n) :
    (l.takeWhile p).take n = l.takeWhile p := by
  apply List.take_of_length_le
  simp only [List.length_take] at h
  omega

theorem drop_takeWhile_zero :
    ∀ (l : List Nat),
      (l.takeWhile (fun b => b != 0)).length < l.length →
      l.drop (l.takeWhile (fun b => b != 0)).length =
        0 :: l.drop ((l.takeWhile (fun b => b != 0)).length + 1) := by
  intro l
  induction l with
  | nil => intro h; simp at h
  | cons a as ih =>
    intro h
    by_cases hp : (a != 0) = true
    · simp only [List.takeWhile_cons, hp, if_true, List.length_cons,
        List.drop_succ_cons] at h ⊢
      exact ih (by omega)
    · have ha : a = 0 := by simpa using hp
      simp only [List.takeWhile_cons, hp, if_false, List.length_nil,
        List.drop_zero, List.drop_succ_cons]
      simp [ha]


theorem cobsGroup_length_le (data : List Nat) : (cobsGroup data).length ≤ data.length := by
  have h1 : (data.takeWhile (fun b => b != 0)).length ≤ data.length :=
    (List.takeWhile_sublist _).length_le
  simp only [cobsGroup, List.length_take]
  omega

theorem cobsEncodeBody_ne_nil (data : List Nat) : cobsEncodeBody data ≠ [] := by
  unfold cobsEncodeBody
  split
  · simp
  · split <;> simp

theorem zero_not_mem_cobsEncodeBody : ∀ (n : Nat) (data : List Nat), data.length ≤ n →
    0 ∉ cobsEncodeBody data := by
  intro n
  induction n with
  | zero =>
    intro data hlen
    have hd : data = [] := by
      cases data with
      | nil => rfl
      | cons a as => simp at hlen
    subst hd
    unfold cobsEncodeBody
    simp [cobsGroup]
  | succ m ih =>
    intro data hlen
    unfold cobsEncodeBody
    split
    · rename_i h254
      intro hmem
      rcases List.mem_cons.mp hmem with h | h
      · omega
      · rcases List.mem_append.mp h with h | h
        · have := mem_twtake h
          simp at this
        · have hlt : (data.drop 254).length ≤ m := by
            have := cobsGroup_length_le data
            simp only [List.length_drop]
            omega
          exact ih (data.drop 254) hlt h
    · split
      · rename_i h254 hlt
        intro hmem
        rcases List.mem_cons.mp hmem with h | h
        · omega
        · rcases List.mem_append.mp h with h | h
          · have := mem_twtake h
            simp at this
          · have hsz : (data.drop ((cobsGroup data).length + 1)).length ≤ m := by
              simp only [List.length_drop]
              omega
            exact ih _ hsz h
      · rename_i h254 hge
        intro hmem
        rcases List.mem_cons.mp hmem with h | h
        · omega
        · have := mem_twtake h
          simp at this


theorem cobsDecodeBody_encodeBody :
    ∀ (n : Nat) (data : List Nat), data.length = n →
    ∀ (rest : List Nat),
      cobsDecodeBody (cobsEncodeBody data ++ 0 :: rest) = some data := by
  intro n
  induction n using Nat.strong_induction_on with
  | _ n ih =>
  intro data hlen rest
  have hgle : (cobsGroup data).length ≤ data.length := cobsGroup_length_le data
  have hg254 : (cobsGroup data).length ≤ 254 := by
    simp only [cobsGroup, List.length_take]; omega
  have hgnz : 0 ∉ cobsGroup data := by
    intro hmem
    have := mem_twtake hmem
    simp at this
  unfold cobsEncodeBody
  split
  · -- full group of 254 non-zero bytes, code byte 255
    rename_i h254
    rw [List.cons_append, List.append_assoc]
    have hne := cobsEncodeBody_ne_nil (data.drop 254)
    obtain ⟨c2, etl, he⟩ := List.exists_cons_of_ne_nil hne
    have hc2 : c2 ≠ 0 := by
      intro h0
      have hz := zero_not_mem_cobsEncodeBody (data.drop 254).length (data.drop 254) le_rfl
      rw [he, h0] at hz
      simp at hz
    have htake : (cobsGroup data ++ (cobsEncodeBody (data.drop 254) ++ 0 :: rest)).take (255 - 1)
        = cobsGroup data := List.take_left' (by omega)
    have hdropR : (cobsGroup data ++ (cobsEncodeBody (data.drop 254) ++ 0 :: rest)).drop (255 - 1)
        = cobsEncodeBody (data.drop 254) ++ 0 :: rest := List.drop_left' (by omega)
    unfold cobsDecodeBody
    rw [if_neg (by omega)]
    rw [if_neg (by simp only [List.length_append, List.length_cons]; omega)]
    rw [htake, if_neg hgnz]
    split
    · rename_i heq
      rw [hdropR, he] at heq
      simp at heq
    · rename_i r rtail heq
      rw [hdropR, he, List.cons_append] at heq
      injection heq with h1 h2
      subst h1
      subst h2
      rw [if_neg hc2]
      have hrec : cobsDecodeBody (c2 :: (etl ++ 0 :: rest)) = some (data.drop 254) := by
        have harr : c2 :: (etl ++ 0 :: rest) = cobsEncodeBody (data.drop 254) ++ 0 :: rest := by
          rw [he]; simp
        rw [harr]
        exact ih (data.drop 254).length (by simp only [List.length_drop]; omega)
          (data.drop 254) rfl rest
      rw [hrec]
      have hfin : cobsGroup data ++ data.drop 254 = data := by
        have h := twtake_append_drop (fun b => b != 0) data 254
        rw [show ((data.takeWhile (fun b => b != 0)).take 254) = cobsGroup data from rfl] at h
        rw [h254] at h
        exact h
      simp only [htake]
      rw [if_neg (by omega)]
      simp [hfin]
  · rename_i h254
    split
    · -- partial group terminated by a payload zero byte
      rename_i hlt
      rw [List.cons_append, List.append_assoc]
      have hne := cobsEncodeBody_ne_nil (data.drop ((cobsGroup data).length + 1))
      obtain ⟨c2, etl, he⟩ := List.exists_cons_of_ne_nil hne
      have hc2 : c2 ≠ 0 := by
        intro h0
        have hz := zero_not_mem_cobsEncodeBody (data.drop ((cobsGroup data).length + 1)).length
          (data.drop ((cobsGroup data).length + 1)) le_rfl
        rw [he, h0] at hz
        simp at hz
      have htake : (cobsGroup data ++ (cobsEncodeBody (data.drop ((cobsGroup data).length + 1)) ++ 0 :: rest)).take ((cobsGroup data).length + 1 - 1)
          = cobsGroup data := List.take_left' (by omega)
      have hdropR : (cobsGroup data ++ (cobsEncodeBody (data.drop ((cobsGroup data).length + 1)) ++ 0 :: rest)).drop ((cobsGroup data).length + 1 - 1)
          = cobsEncodeBody (data.drop ((cobsGroup data).length + 1)) ++ 0 :: rest :=
        List.drop_left' (by omega)
      unfold cobsDecodeBody
      rw [if_neg (by omega)]
      rw [if_neg (by simp only [List.length_append, List.length_cons]; omega)]
      rw [htake, if_neg hgnz]
      split
      · rename_i heq
        rw [hdropR, he] at heq
        simp at heq
      · rename_i r rtail heq
        rw [hdropR, he, List.cons_append] at heq
        injection heq with h1 h2
        subst h1
        subst h2
        rw [if_neg hc2]
        have hrec : cobsDecodeBody (c2 :: (etl ++ 0 :: rest))
            = some (data.drop ((cobsGroup data).length + 1)) := by
          have harr : c2 :: (etl ++ 0 :: rest)
              = cobsEncodeBody (data.drop ((cobsGroup data).length + 1)) ++ 0 :: rest := by
            rw [he]; simp
          rw [harr]
          exact ih (data.drop ((cobsGroup data).length + 1)).length
            (by simp only [List.length_drop]; omega)
            (data.drop ((cobsGroup data).length + 1)) rfl rest
        rw [hrec]
        have hgtw : cobsGroup data = data.takeWhile (fun b => b != 0) := by
          have := twtake_short (fun b => b != 0) data 254 (by simpa [cobsGroup] using h254)
          simpa [cobsGroup] using this
        have hdz : data.drop (cobsGroup data).length
            = 0 :: data.drop ((cobsGroup data).length + 1) := by
          rw [hgtw]
          exact drop_takeWhile_zero data (by rw [← hgtw]; exact hlt)
        have hfin : cobsGroup data ++ 0 :: data.drop ((cobsGroup data).length + 1) = data := by
          rw [← hdz]
          have h := twtake_append_drop (fun b => b != 0) data 254
          exact h
        simp only [htake]
        rw [if_pos (by omega)]
        simpa using hfin
    · -- final group: payload exhausted without a trailing zero
      rename_i hge
      rw [List.cons_append]
      have htake : (cobsGroup data ++ 0 :: rest).take ((cobsGroup data).length + 1 - 1)
          = cobsGroup data := List.take_left' (by omega)
      have hdropR : (cobsGroup data ++ 0 :: rest).drop ((cobsGroup data).length + 1 - 1)
          = 0 :: rest := List.drop_left' (by omega)
      unfold cobsDecodeBody
      rw [if_neg (by omega)]
      rw [if_neg (by simp only [List.length_append, List.length_cons]; omega)]
      rw [htake, if_neg hgnz]
      split
      · rename_i heq
        rw [hdropR] at heq
        simp at heq
      · rename_i r rtail heq
        rw [hdropR] at heq
        injection heq with h1 h2
        subst h1
        subst h2
        rw [if_pos rfl]
        have hL : (cobsGroup data).length = data.length := by omega
        have h := twtake_append_drop (fun b => b != 0) data 254
        rw [show ((data.takeWhile (fun b => b != 0)).take 254) = cobsGroup data from rfl] at h
        rw [hL, List.drop_length, List.append_nil] at h
        rw [h]

end TestStand

namespace TestStand

theorem wait_done (data : List Nat) (mode : UsartMode) (buf : List Nat)
    (events : List WaitEvent) (hlen : data.length ≠ 0)
    (hc : windowsContains buf data = true) :
    waitForUsartRxInner data mode buf events = .ok buf := by
  unfold waitForUsartRxInner
  simp [hlen, hc]

theorem wait_step (data : List Nat) (mode : UsartMode) (buf : List Nat)
    (ev : WaitEvent) (rest : List WaitEvent)
    (hlen : data.length ≠ 0) (hc : windowsContains buf data = false) :
    waitForUsartRxInner data mode buf (ev :: rest) =
      (match ev with
      | .timedOut => .timeout
      | .message (TargetToHost.usartReceive m d) =>
        if m = mode then waitForUsartRxInner data mode (buf ++ d) rest
        else .unexpectedMessage
      | .message _ => .unexpectedMessage) := by
  conv_lhs => rw [waitForUsartRxInner.eq_def]
  simp only [hlen, hc, if_false, Bool.false_eq_true, ite_false]
  cases ev with
  | timedOut => rfl
  | message m => cases m <;> rfl

end TestStand

namespace TestStand

theorem wait_skip (data : List Nat) (mode : UsartMode) (hlen : data.length ≠ 0) :
    ∀ (payloads : List (List Nat)) (buf : List Nat) (tail : List WaitEvent),
      (∀ j, j ≤ payloads.length →
        windowsContains (buf ++ (payloads.take j).flatten) data = false) →
      waitForUsartRxInner data mode buf
        (payloads.map (fun d => WaitEvent.message (TargetToHost.usartReceive mode d)) ++ tail) =
      waitForUsartRxInner data mode (buf ++ payloads.flatten) tail := by
  intro payloads
  induction payloads with
  | nil =>
    intro buf tail h
    simp
  | cons p ps ih =>
    intro buf tail h
    have h0 : windowsContains buf data = false := by simpa using h 0 (by omega)
    rw [List.map_cons, List.cons_append, wait_step data mode buf _ _ hlen h0]
    simp only [if_pos rfl]
    rw [ih (buf ++ p) tail]
    · simp
    · intro j hj
      have := h (j + 1) (by simpa using hj)
      simpa [List.append_assoc] using this

theorem wait_stop (data : List Nat) (mode : UsartMode) (hlen : data.length ≠ 0) :
    ∀ (k : Nat) (payloads : List (List Nat)) (buf : List Nat) (tail : List WaitEvent),
      k ≤ payloads.length →
      windowsContains (buf ++ (payloads.take k).flatten) data = true →
      (∀ j, j < k → windowsContains (buf ++ (payloads.take j).flatten) data = false) →
      waitForUsartRxInner data mode buf
        (payloads.map (fun d => WaitEvent.message (TargetToHost.usartReceive mode d)) ++ tail) =
      .ok (buf ++ (payloads.take k).flatten) := by
  intro k
  induction k with
  | zero =>
    intro payloads buf tail hk hc hmin
    simp only [List.take_zero, List.flatten_nil, List.append_nil] at hc ⊢
    exact wait_done data mode buf _ hlen hc
  | succ m ih =>
    intro payloads buf tail hk hc hmin
    cases payloads with
    | nil => simp at hk
    | cons p ps =>
      have h0 : windowsContains buf data = false := by simpa using hmin 0 (by omega)
      rw [List.map_cons, List.cons_append, wait_step data mode buf _ _ hlen h0]
      simp only [if_pos rfl]
      have hres := ih ps (buf ++ p) tail (by simpa using hk)
        (by simpa [List.append_assoc] using hc)
        (fun j hj => by simpa [List.append_assoc] using hmin (j + 1) (by omega))
      rw [hres]
      simp

end TestStand

namespace TestStand

theorem receiveRaw_run (bufLen : Nat) :
    ∀ (stream written : List Nat),
      ((written.length + (stream.takeWhile (fun b => b != 0)).length < bufLen →
        (stream.takeWhile (fun b => b != 0)).length < stream.length →
        receiveRaw bufLen written stream =
          .ok (written ++ stream.takeWhile (fun b => b != 0) ++ [0])
            (stream.drop ((stream.takeWhile (fun b => b != 0)).length + 1)))) ∧
      (bufLen ≤ written.length + (stream.takeWhile (fun b => b != 0)).length →
        receiveRaw bufLen written stream = .bufferTooSmall) := by
  intro stream
  induction stream with
  | nil =>
    intro written
    constructor
    · intro h1 h2
      simp only [List.takeWhile_nil, List.length_nil] at h2
      omega
    · intro h
      simp only [List.takeWhile_nil, List.length_nil, Nat.add_zero] at h
      simp [receiveRaw, h]
  | cons b rest ih =>
    intro written
    by_cases hb : b = 0
    · subst hb
      have htw : List.takeWhile (fun x => x != 0) (0 :: rest) = [] := by simp
      constructor
      · intro h1 h2
        rw [htw] at h1
        simp only [List.length_nil, Nat.add_zero] at h1
        rw [htw]
        simp [receiveRaw, Nat.not_le.mpr h1]
      · intro h
        rw [htw] at h
        simp only [List.length_nil, Nat.add_zero] at h
        simp [receiveRaw, h]
    · have hbp : (b != 0) = true := by simpa using hb
      have htw : List.takeWhile (fun x => x != 0) (b :: rest)
          = b :: List.takeWhile (fun x => x != 0) rest := by
        simp [List.takeWhile_cons, hbp]
      constructor
      · intro h1 h2
        rw [htw] at h1 h2
        simp only [List.length_cons] at h1 h2
        have hw : ¬ bufLen ≤ written.length := by omega
        rw [htw]
        simp only [receiveRaw, if_neg hw, if_neg hb]
        rw [(ih (written ++ [b])).1
          (by simp only [List.length_append, List.length_cons, List.length_nil]; omega)
          (by omega)]
        simp [List.append_assoc]
      · intro h
        by_cases hw : bufLen ≤ written.length
        · simp [receiveRaw, hw]
        · rw [htw] at h
          simp only [List.length_cons] at h
          simp only [receiveRaw, if_neg hw, if_neg hb]
          exact (ih (written ++ [b])).2
            (by simp only [List.length_append, List.length_cons, List.length_nil]; omega)

theorem receiveRaw_ok_shape (bufLen : Nat) :
    ∀ (stream written frame rest : List Nat),
      receiveRaw bufLen written stream = .ok frame rest →
      (∃ consumed, frame = written ++ consumed ∧ consumed ++ rest = stream) ∧
      frame.length ≤ bufLen := by
  intro stream
  induction stream with
  | nil =>
    intro written frame rest h
    by_cases hw : bufLen ≤ written.length <;> simp [receiveRaw, hw] at h
  | cons b rest2 ih =>
    intro written frame rest h
    by_cases hw : bufLen ≤ written.length
    · simp [receiveRaw, hw] at h
    · by_cases hb : b = 0
      · subst hb
        simp only [receiveRaw, if_neg hw, if_pos rfl] at h
        injection h with h1 h2
        subst h1
        subst h2
        constructor
        · exact ⟨[0], rfl, rfl⟩
        · simp only [List.length_append, List.length_cons, List.length_nil]
          omega
      · simp only [receiveRaw, if_neg hw, if_neg hb] at h
        obtain ⟨⟨consumed, hf, hc⟩, hlen⟩ := ih (written ++ [b]) frame rest h
        refine ⟨⟨b :: consumed, ?_, ?_⟩, hlen⟩
        · rw [hf]
          simp
        · rw [← hc]
          simp

end TestStand

namespace TestStand

theorem drainDmaQueue_eq_map : ∀ (q : List Nat),
    drainDmaQueue q = q.map (fun b => TargetToHost.usartReceive UsartMode.dma [b]) := by
  intro q
  induction q with
  | nil => rfl
  | cons b rest ih => simp [drainDmaQueue, ih]

theorem enqueueAll_of_le : ∀ (l q : List Nat),
    q.length + l.length ≤ dmaQueueCapacity →
    enqueueAll q l = some (q ++ l) := by
  intro l
  induction l with
  | nil => intro q h; simp [enqueueAll]
  | cons b rest ih =>
    intro q h
    simp only [List.length_cons] at h
    have hroom : q.length < dmaQueueCapacity := by omega
    simp only [enqueueAll, spscEnqueue, if_pos hroom]
    rw [ih (q ++ [b]) (by simp; omega)]
    simp

theorem executeMessage_sends_le_one (env : Env) (msg : HostToTarget) :
    ∀ sent, executeMessage env msg = .ok sent → sent.length ≤ 1 := by
  intro sent h
  cases msg with
  | sendUsart mode data => cases mode <;> (simp [executeMessage] at h; subst h; simp)
  | waitForAddress a => simp [executeMessage] at h; subst h; simp
  | setPin l => simp [executeMessage] at h; subst h; simp
  | readPin => simp [executeMessage] at h; subst h; simp
  | startTimerInterrupt p => simp [executeMessage] at h; subst h; simp
  | stopTimerInterrupt => simp [executeMessage] at h; subst h; simp
  | startI2cTransaction mode a d => cases mode <;> (simp [executeMessage] at h; subst h; simp)
  | startSpiTransaction mode d => cases mode <;> (simp [executeMessage] at h; subst h; simp)
  | startPwmSignal => simp [executeMessage] at h
  | stopPwmSignal => simp [executeMessage] at h
  | readAdc => simp [executeMessage] at h

theorem executeMessage_ne_takeFailed (env : Env) (msg : HostToTarget) :
    executeMessage env msg ≠ .error FwPanic.takeFailed := by
  cases msg with
  | sendUsart mode data => cases mode <;> simp [executeMessage]
  | startI2cTransaction mode a d => cases mode <;> simp [executeMessage]
  | startSpiTransaction mode d => cases mode <;> simp [executeMessage]
  | _ => simp [executeMessage]

theorem executeMessage_unsupported (env : Env) (msg : HostToTarget)
    (h : supportedMessage msg = false) :
    executeMessage env msg = .error FwPanic.unsupportedMessage := by
  cases msg with
  | sendUsart mode data => simp [supportedMessage] at h
  | waitForAddress a => simp [supportedMessage] at h
  | setPin l => simp [supportedMessage] at h
  | readPin => simp [supportedMessage] at h
  | startTimerInterrupt p => simp [supportedMessage] at h
  | stopTimerInterrupt => simp [supportedMessage] at h
  | startI2cTransaction mode a d => simp [supportedMessage] at h
  | startSpiTransaction mode d => simp [supportedMessage] at h
  | startPwmSignal => rfl
  | stopPwmSignal => rfl
  | readAdc => rfl

theorem cobsEncodeBody_single : cobsEncodeBody [7] = [2, 7] := by
  unfold cobsEncodeBody
  simp [cobsGroup]

end TestStand

namespace TestStand

theorem processHostMessage_ok (env : Env) (res : Resources) (msg : HostToTarget)
    (res2 : Resources) (sent : List TargetToHost)
    (h : processHostMessage env res msg = .ok (res2, sent)) :
    executeMessage env msg = .ok sent ∧ res2.allSome = true := by
  unfold processHostMessage at h
  split at h
  · cases he : executeMessage env msg with
    | error e => rw [he] at h; simp at h
    | ok sent2 =>
      rw [he] at h
      simp only [Except.ok.injEq, Prod.mk.injEq] at h
      obtain ⟨h1, h2⟩ := h
      subst h2
      refine ⟨rfl, ?_⟩
      rw [← h1]
      rfl
  · simp at h

theorem optionUnit_some (o : Option Unit) (h : o.isSome = true) : o = some () := by
  cases o with
  | none => simp at h
  | some u => rfl

theorem processHostMessage_no_takeFailed (env : Env) (res : Resources)
    (msg : HostToTarget) (hall : res.allSome = true) :
    processHostMessage env res msg ≠ .error FwPanic.takeFailed := by
  simp only [Resources.allSome, Bool.and_eq_true] at hall
  obtain ⟨⟨⟨⟨⟨⟨⟨⟨⟨⟨a1, a2⟩, a3⟩, a4⟩, a5⟩, a6⟩, a7⟩, a8⟩, a9⟩, a10⟩, a11⟩ := hall
  unfold processHostMessage
  rw [optionUnit_some _ a1, optionUnit_some _ a2, optionUnit_some _ a3,
    optionUnit_some _ a4, optionUnit_some _ a5, optionUnit_some _ a6,
    optionUnit_some _ a7, optionUnit_some _ a8, optionUnit_some _ a9,
    optionUnit_some _ a10, optionUnit_some _ a11]
  cases he : executeMessage env msg with
  | error e =>
    simp only [he]
    intro hcontra
    injection hcontra with h2
    exact executeMessage_ne_takeFailed env msg (h2 ▸ he)
  | ok sent =>
    simp [he]

end TestStand

namespace TestStand

/-- Claim C1: for every byte payload, including payloads that contain the
sentinel byte 0, decoding the COBS-framed encoding of that payload yields the
original payload: the deframing used by `Request::receive` inverts the
framing used by `Request::send`. -/
theorem cobs_frame_roundtrip (payload : List Nat) (hbytes : ∀ b ∈ payload, b < 256) :
    cobsDecode (cobsEncode payload) = some payload := by
  have h := cobsDecodeBody_encodeBody payload.length payload rfl []
  simpa [cobsDecode, cobsEncode] using h

/-- Witness for C1 at a payload containing the sentinel byte twice. -/
theorem cobs_frame_roundtrip_witness :
    (∀ b ∈ [65, 0, 66, 0, 67], b < 256) ∧
    cobsDecode (cobsEncode [65, 0, 66, 0, 67]) = some [65, 0, 66, 0, 67] :=
  ⟨by decide, cobs_frame_roundtrip [65, 0, 66, 0, 67] (by decide)⟩

/-- Claim C2: the read loop of `Request::receive` consumes bytes one at a
time, stops at the first zero byte without reading past it, writes at most
`buf.len()` bytes, fails with `BufferTooSmall` when the buffer fills without
a zero byte arriving, and decodes a frame whose terminator arrives within
the buffer using no external length information. -/
theorem request_receive_spec (bufLen : Nat) (stream : List Nat) :
    (∀ pre, pre = stream.takeWhile (fun b => b != 0) →
      ((pre.length < bufLen → pre.length < stream.length →
        receiveRaw bufLen [] stream =
          .ok (pre ++ [0]) (stream.drop (pre.length + 1))) ∧
       (bufLen ≤ pre.length → receiveRaw bufLen [] stream = .bufferTooSmall))) ∧
    (∀ frame rest, receiveRaw bufLen [] stream = .ok frame rest →
      frame ++ rest = stream ∧ frame.length ≤ bufLen) ∧
    (∀ payload rest, stream = cobsEncode payload ++ rest →
      (cobsEncodeBody payload).length < bufLen →
      requestReceive bufLen stream = .ok payload rest) := by
  refine ⟨?_, ?_, ?_⟩
  · intro pre hpre
    subst hpre
    constructor
    · intro h1 h2
      have h := (receiveRaw_run bufLen stream []).1 (by simpa using h1) h2
      simpa using h
    · intro h
      exact (receiveRaw_run bufLen stream []).2 (by simpa using h)
  · intro frame rest h
    obtain ⟨⟨consumed, hf, hc⟩, hlen⟩ := receiveRaw_ok_shape bufLen stream [] frame rest h
    refine ⟨?_, hlen⟩
    rw [hf, List.nil_append]
    exact hc
  · intro payload rest hstream hlenc
    have hs : stream = cobsEncodeBody payload ++ 0 :: rest := by
      rw [hstream, cobsEncode]
      simp
    have hz : ∀ b ∈ cobsEncodeBody payload, (b != 0) = true := by
      intro b hb
      have h0 : b ≠ 0 := by
        intro he
        exact zero_not_mem_cobsEncodeBody payload.length payload le_rfl (he ▸ hb)
      simpa using h0
    have htw : stream.takeWhile (fun b => b != 0) = cobsEncodeBody payload := by
      rw [hs, List.takeWhile_append_of_pos hz]
      simp
    have hraw := (receiveRaw_run bufLen stream []).1
      (by rw [htw]; simpa using hlenc)
      (by
        rw [htw, hs]
        simp only [List.length_append, List.length_cons]
        omega)
    rw [htw] at hraw
    have hdrop : stream.drop ((cobsEncodeBody payload).length + 1) = rest := by
      rw [hs]
      have harr : cobsEncodeBody payload ++ 0 :: rest
          = (cobsEncodeBody payload ++ [0]) ++ rest := by simp
      rw [harr]
      exact List.drop_left' (by simp)
    rw [hdrop] at hraw
    have hdec : cobsDecodeBody (cobsEncodeBody payload ++ [0]) = some payload := by
      have h := cobsDecodeBody_encodeBody payload.length payload rfl []
      simpa using h
    unfold requestReceive
    rw [hraw]
    simp only [List.nil_append]
    rw [hdec]

/-- Witness for C2: a regular frame, a too-small buffer, the consumed/rest
split, and end-to-end decoding of an encoded frame followed by read-ahead
bytes. -/
theorem request_receive_spec_witness :
    receiveRaw 8 [] [5, 0, 9] = .ok [5, 0] [9] ∧
    receiveRaw 1 [] [5, 0, 9] = .bufferTooSmall ∧
    ([5, 0] ++ [9] = [5, 0, 9] ∧ ([5, 0] : List Nat).length ≤ 8) ∧
    requestReceive 8 (cobsEncode [7] ++ [9]) = .ok [7] [9] := by
  refine ⟨?_, ?_, ?_, ?_⟩
  · have h := ((request_receive_spec 8 [5, 0, 9]).1 [5] rfl).1 (by decide) (by decide)
    simpa using h
  · exact ((request_receive_spec 1 [5, 0, 9]).1 [5] rfl).2 (by decide)
  · exact (request_receive_spec 8 [5, 0, 9]).2.1 [5, 0] [9] (by decide)
  · exact (request_receive_spec 8 (cobsEncode [7] ++ [9])).2.2 [7] [9] rfl
      (by rw [cobsEncodeBody_single]; decide)

end TestStand

namespace TestStand

/-- Claim C3: with a non-empty expected byte sequence, as long as every
received message is a `UsartReceive` with the expected mode, the wait loop
appends the payloads in arrival order and returns `Ok` with the accumulated
buffer as soon as it contains the expected data as a contiguous window; a
message of another variant or mode yields `UnexpectedMessage`, and an
elapsed timeout yields `Timeout`. -/
theorem wait_for_usart_rx_behaviour (data : List Nat) (expectedMode : UsartMode)
    (hdata : data ≠ []) :
    (∀ (payloads : List (List Nat)) (k : Nat),
      k ≤ payloads.length →
      windowsContains ((payloads.take k).flatten) data = true →
      (∀ j, j < k → windowsContains ((payloads.take j).flatten) data = false) →
      waitForUsartRxInner data expectedMode []
        (payloads.map (fun d => WaitEvent.message (TargetToHost.usartReceive expectedMode d))) =
        .ok ((payloads.take k).flatten)) ∧
    (∀ (payloads : List (List Nat)) (m : TargetToHost) (tail : List WaitEvent),
      matchesExpected expectedMode m = false →
      (∀ j, j ≤ payloads.length → windowsContains ((payloads.take j).flatten) data = false) →
      waitForUsartRxInner data expectedMode []
        (payloads.map (fun d => WaitEvent.message (TargetToHost.usartReceive expectedMode d))
          ++ WaitEvent.message m :: tail) = .unexpectedMessage) ∧
    (∀ (payloads : List (List Nat)) (tail : List WaitEvent),
      (∀ j, j ≤ payloads.length → windowsContains ((payloads.take j).flatten) data = false) →
      waitForUsartRxInner data expectedMode []
        (payloads.map (fun d => WaitEvent.message (TargetToHost.usartReceive expectedMode d))
          ++ WaitEvent.timedOut :: tail) = .timeout) ∧
    wait_for_usart_rx_dma data = waitForUsartRxInner data UsartMode.dma [] := by
  have hlen : data.length ≠ 0 := by simpa using hdata
  refine ⟨?_, ?_, ?_, rfl⟩
  · intro payloads k hk hc hmin
    have h := wait_stop data expectedMode hlen k payloads [] [] hk
      (by simpa using hc) (fun j hj => by simpa using hmin j hj)
    simpa using h
  · intro payloads m tail hm hnone
    have hfull : windowsContains ([] ++ payloads.flatten) data = false := by
      have h := hnone payloads.length le_rfl
      simpa using h
    rw [wait_skip data expectedMode hlen payloads [] (WaitEvent.message m :: tail)
      (fun j hj => by simpa using hnone j hj)]
    rw [wait_step data expectedMode ([] ++ payloads.flatten) _ _ hlen hfull]
    cases m with
    | usartReceive m2 d =>
      simp only [matchesExpected] at hm
      have hne : m2 ≠ expectedMode := by simpa using hm
      simp [hne]
    | readPinResult l => rfl
    | i2cReply b => rfl
    | spiReply b => rfl
    | adcValue v => rfl
  · intro payloads tail hnone
    have hfull : windowsContains ([] ++ payloads.flatten) data = false := by
      have h := hnone payloads.length le_rfl
      simpa using h
    rw [wait_skip data expectedMode hlen payloads [] (WaitEvent.timedOut :: tail)
      (fun j hj => by simpa using hnone j hj)]
    rw [wait_step data expectedMode ([] ++ payloads.flatten) _ _ hlen hfull]

/-- Witness for C3: the DMA echo scenario, a wrong-variant reply, and a
timeout, each at concrete inputs. -/
theorem wait_for_usart_rx_behaviour_witness :
    waitForUsartRxInner [65, 66] UsartMode.dma []
      [WaitEvent.message (TargetToHost.usartReceive UsartMode.dma [65]),
       WaitEvent.message (TargetToHost.usartReceive UsartMode.dma [66])] = .ok [65, 66] ∧
    waitForUsartRxInner [65, 66] UsartMode.dma []
      [WaitEvent.message (TargetToHost.readPinResult PinLevel.high)] = .unexpectedMessage ∧
    waitForUsartRxInner [65, 66] UsartMode.dma [] [WaitEvent.timedOut] = .timeout := by
  refine ⟨?_, ?_, ?_⟩
  · have h := (wait_for_usart_rx_behaviour [65, 66] UsartMode.dma (by decide)).1
      [[65], [66]] 2 (by decide) (by decide) (by decide)
    simpa using h
  · have h := (wait_for_usart_rx_behaviour [65, 66] UsartMode.dma (by decide)).2.1
      [] (TargetToHost.readPinResult PinLevel.high) [] (by decide) (by decide)
    simpa using h
  · have h := (wait_for_usart_rx_behaviour [65, 66] UsartMode.dma (by decide)).2.2.1
      [] [] (by decide)
    simpa using h

end TestStand

namespace TestStand

/-- Claim C4: every successful `idle` iteration emits, in order, the pending
regular USART telemetry, the pending sync USART telemetry, one
`UsartReceive {mode: Dma}` message per DMA-queue byte in dequeue order, and
finally the replies of at most one host command, of which there is at most
one. -/
theorem idle_iteration_order (env : Env) (res : Resources) (inp : PipelineInput)
    (res2 : Resources) (out : List TargetToHost)
    (h : idleIteration env res inp = .ok (res2, out)) :
    ∃ replies,
      out = forwardRaw UsartMode.regular inp.usartData
        ++ forwardRaw UsartMode.sync inp.usartSyncData
        ++ inp.dmaQueue.map (fun b => TargetToHost.usartReceive UsartMode.dma [b])
        ++ replies ∧
      replies.length ≤ 1 := by
  unfold idleIteration at h
  cases hm : inp.hostMessage with
  | none =>
    rw [hm] at h
    simp only [Except.ok.injEq, Prod.mk.injEq] at h
    refine ⟨[], ?_, by simp⟩
    rw [← h.2, drainDmaQueue_eq_map]
    simp
  | some msg =>
    rw [hm] at h
    dsimp only at h
    cases hp : processHostMessage env res msg with
    | error e => rw [hp] at h; simp at h
    | ok pr =>
      obtain ⟨res3, sent⟩ := pr
      rw [hp] at h
      simp only [Except.ok.injEq, Prod.mk.injEq] at h
      refine ⟨sent, ?_, ?_⟩
      · rw [← h.2, drainDmaQueue_eq_map]
      · exact executeMessage_sends_le_one env msg sent
          (processHostMessage_ok env res msg res3 sent hp).1

/-- Witness for C4: an iteration with pending data on every pipeline and a
`ReadPin` command. -/
theorem idle_iteration_order_witness :
    ∃ replies,
      [TargetToHost.usartReceive UsartMode.regular [1],
       TargetToHost.usartReceive UsartMode.sync [2],
       TargetToHost.usartReceive UsartMode.dma [3],
       TargetToHost.usartReceive UsartMode.dma [4],
       TargetToHost.readPinResult PinLevel.high]
      = forwardRaw UsartMode.regular [1] ++ forwardRaw UsartMode.sync [2]
        ++ [3, 4].map (fun b => TargetToHost.usartReceive UsartMode.dma [b]) ++ replies ∧
      replies.length ≤ 1 :=
  idle_iteration_order ⟨PinLevel.high, 5, 6⟩
    ⟨some (), some (), some (), some (), some (), some (), some (), some (),
     some (), some (), some ()⟩
    ⟨[1], [2], [3, 4], some HostToTarget.readPin⟩
    ⟨some (), some (), some (), some (), some (), some (), some (), some (),
     some (), some (), some ()⟩
    _ (by rfl)

/-- Claim C5: whenever the `dma0` handler runs on a started transfer and the
queue has room, it enqueues every byte of the completed buffer in buffer
order and re-arms a transfer over the same buffer; every non-panicking run
ends with a started transfer. -/
theorem dma0_spec :
    (∀ (st : Dma0State) (buffer : List Nat),
      st.transfer = some buffer →
      st.queue.length + buffer.length ≤ dmaQueueCapacity →
      dma0 st = .ok { transfer := some buffer, queue := st.queue ++ buffer }) ∧
    (∀ (st st2 : Dma0State), dma0 st = .ok st2 → st2.transfer.isSome = true) := by
  constructor
  · intro st buffer ht hroom
    unfold dma0
    rw [ht]
    dsimp only
    rw [enqueueAll_of_le buffer st.queue hroom]
  · intro st st2 h
    unfold dma0 at h
    cases ht : st.transfer with
    | none => rw [ht] at h; simp at h
    | some buffer =>
      rw [ht] at h
      dsimp only at h
      cases he : enqueueAll st.queue buffer with
      | none => rw [he] at h; simp at h
      | some q2 =>
        rw [he] at h
        simp only [Except.ok.injEq] at h
        rw [← h]
        rfl

/-- Witness for C5: a completed two-byte buffer drained into a queue holding
one byte. -/
theorem dma0_spec_witness :
    dma0 ⟨some [10, 11], [1]⟩ = .ok ⟨some [10, 11], [1, 10, 11]⟩ := by
  have h := dma0_spec.1 ⟨some [10, 11], [1]⟩ [10, 11] rfl (by decide)
  simpa using h

end TestStand

namespace TestStand

/-- Counterexample for C6 as stated: the pre-suspension check consults only
the host and regular USART pipelines, so with only the sync pipeline (or the
DMA queue) ready the loop still suspends. -/
theorem sleep_check_counterexample :
    sleepConditionHolds ⟨false, false, true, false⟩ = true ∧
    anyPipelineCanProcess ⟨false, false, true, false⟩ = true := by decide

/-- Claim C6 (amended): the dispatch loop never suspends while the host or
the regular USART pipeline reports `can_process()`; the sync pipeline and
the DMA queue are not consulted by the check. -/
theorem sleep_skipped_for_checked_pipelines (s : ReadinessState)
    (h : s.hostCanProcess = true ∨ s.usartCanProcess = true) :
    sleepConditionHolds s = false := by
  cases h with
  | inl h => simp [sleepConditionHolds, h]
  | inr h => simp [sleepConditionHolds, h]

/-- Witness for the amended C6. -/
theorem sleep_skipped_for_checked_pipelines_witness :
    sleepConditionHolds ⟨true, false, false, false⟩ = false :=
  sleep_skipped_for_checked_pipelines ⟨true, false, false, false⟩ (Or.inl rfl)

/-- Claim C7: dropping a `TimerInterrupt` guard sends exactly one
`StopTimerInterrupt` command; if that send fails, the drop panics instead of
falling back. -/
theorem timer_guard_drop (conn : ConnState) :
    (conn.sendFails = false →
      timerInterruptDrop conn =
        .ok { conn with sentLog := conn.sentLog ++ [HostToTarget.stopTimerInterrupt] }) ∧
    (conn.sendFails = true →
      timerInterruptDrop conn = .error HostPanic.unwrapOnSendError) := by
  constructor
  · intro h
    simp [timerInterruptDrop, connSend, h]
  · intro h
    simp [timerInterruptDrop, connSend, h]

/-- Witness for C7 on a working and on a failing channel. -/
theorem timer_guard_drop_witness :
    timerInterruptDrop ⟨false, []⟩ = .ok ⟨false, [HostToTarget.stopTimerInterrupt]⟩ ∧
    timerInterruptDrop ⟨true, []⟩ = .error HostPanic.unwrapOnSendError := by
  constructor
  · have h := (timer_guard_drop ⟨false, []⟩).1 rfl
    simpa using h
  · exact (timer_guard_drop ⟨true, []⟩).2 rfl

/-- Claim C8: a decoded host command matching none of the handled
`HostToTarget` variants makes the firmware panic; it is never answered and
never silently ignored. -/
theorem unsupported_message_panics (env : Env) (msg : HostToTarget)
    (h : supportedMessage msg = false) :
    executeMessage env msg = .error FwPanic.unsupportedMessage ∧
    ∀ (res res2 : Resources) (sent : List TargetToHost),
      processHostMessage env res msg ≠ .ok (res2, sent) := by
  refine ⟨executeMessage_unsupported env msg h, ?_⟩
  intro res res2 sent hcontra
  have hok := (processHostMessage_ok env res msg res2 sent hcontra).1
  rw [executeMessage_unsupported env msg h] at hok
  simp at hok

/-- Witness for C8 at the `ReadAdc` command, which the lpc845 firmware does
not handle. -/
theorem unsupported_message_panics_witness :
    executeMessage ⟨PinLevel.high, 0, 0⟩ HostToTarget.readAdc
      = .error FwPanic.unsupportedMessage :=
  (unsupported_message_panics ⟨PinLevel.high, 0, 0⟩ HostToTarget.readAdc (by decide)).1

/-- Claim C9: calling `wait_for_usart_rx`, `wait_for_usart_rx_dma` or
`wait_for_usart_rx_sync` with an empty expected slice panics
(`Vec::windows` is called with window size 0 before any receive occurs). -/
theorem wait_empty_data_panics (events : List WaitEvent) :
    wait_for_usart_rx [] events = .panicked ∧
    wait_for_usart_rx_dma [] events = .panicked ∧
    wait_for_usart_rx_sync [] events = .panicked := by
  refine ⟨?_, ?_, ?_⟩ <;>
    · simp only [wait_for_usart_rx, wait_for_usart_rx_dma, wait_for_usart_rx_sync]
      rw [waitForUsartRxInner.eq_def]
      simp

/-- Claim C10: if all `Option`-wrapped shared resources are occupied at the
start of an iteration, the `take().unwrap()` calls of the command closure
cannot fail, and every non-panicking path stores every resource back, so the
invariant holds again at the next iteration. -/
theorem idle_resources_invariant (env : Env) (res : Resources)
    (hall : res.allSome = true) :
    (∀ msg : HostToTarget,
      processHostMessage env res msg ≠ .error FwPanic.takeFailed ∧
      ∀ (res2 : Resources) (sent : List TargetToHost),
        processHostMessage env res msg = .ok (res2, sent) → res2.allSome = true) ∧
    (∀ (inp : PipelineInput) (res2 : Resources) (out : List TargetToHost),
      idleIteration env res inp = .ok (res2, out) → res2.allSome = true) := by
  constructor
  · intro msg
    refine ⟨processHostMessage_no_takeFailed env res msg hall, ?_⟩
    intro res2 sent h
    exact (processHostMessage_ok env res msg res2 sent h).2
  · intro inp res2 out h
    unfold idleIteration at h
    cases hm : inp.hostMessage with
    | none =>
      rw [hm] at h
      simp only [Except.ok.injEq, Prod.mk.injEq] at h
      rw [← h.1]
      exact hall
    | some msg =>
      rw [hm] at h
      dsimp only at h
      cases hp : processHostMessage env res msg with
      | error e => rw [hp] at h; simp at h
      | ok pr =>
        obtain ⟨res3, sent⟩ := pr
        rw [hp] at h
        simp only [Except.ok.injEq, Prod.mk.injEq] at h
        rw [← h.1]
        exact (processHostMessage_ok env res msg res3 sent hp).2

/-- Witness for C10: a fully occupied resource set processing a `ReadPin`
command. -/
theorem idle_resources_invariant_witness :
    processHostMessage ⟨PinLevel.low, 1, 2⟩
      ⟨some (), some (), some (), some (), some (), some (), some (), some (),
       some (), some (), some ()⟩ HostToTarget.readPin
      ≠ .error FwPanic.takeFailed :=
  ((idle_resources_invariant ⟨PinLevel.low, 1, 2⟩
    ⟨some (), some (), some (), some (), some (), some (), some (), some (),
     some (), some (), some ()⟩ (by decide)).1 HostToTarget.readPin).1

end TestStand
